import Mathlib

/-! Formal model of the janus mixed sync/async queue (src/janus/__init__.py).

The Python source is embedded shallowly: the shared queue state becomes an
explicit record, each proxy method becomes a state-transition function, and
a blocking call is captured at its commit point (the source holds the
low-level mutex from the final predicate check through the commit).
-/

namespace Janus

/-! ## Ordering strategies

`Queue._put` appends to the right end of a deque and `Queue._get` pops from
the left end; `LifoQueue._put` appends to the right end and `LifoQueue._get`
pops from the right end.  A deque is embedded as a Lean list whose head is
the left end. -/

/-- Embeds `Queue._put`: `self._queue.append(item)`. -/
def fifo_put {α : Type} (buf : List α) (x : α) : List α := buf ++ [x]

/-- Embeds `Queue._get`: `self._queue.popleft()`; `none` on the empty deque
(every caller guards on `_qsize` first). -/
def fifo_get {α : Type} (buf : List α) : Option (α × List α) :=
  match buf with
  | [] => none
  | x :: rest => some (x, rest)

/-- Embeds `LifoQueue._put`: `self._queue.append(item)`. -/
def lifo_put {α : Type} (buf : List α) (x : α) : List α := buf ++ [x]

/-- Embeds `LifoQueue._get`: `self._queue.pop()`, removing the right end. -/
def lifo_get {α : Type} (buf : List α) : Option (α × List α) :=
  match buf.getLast? with
  | none => none
  | some x => some (x, buf.dropLast)

/-- Modelled from the spec: `PriorityQueue._put` delegates to `heapq.heappush`,
a Python standard-library routine that is not part of this repository; the
spec describes the strategy as "heap-insert/heap-extract-min for priority —
priority comparison delegates entirely to the item type's own ordering".
The heap is represented canonically by the ascending-sorted list of its
elements and insertion keeps that list sorted. -/
def heappush {α : Type} [LinearOrder α] (buf : List α) (x : α) : List α :=
  buf.orderedInsert (· ≤ ·) x

/-- Modelled from the spec: `PriorityQueue._get` delegates to `heapq.heappop`
(standard library, "heap-extract-min"); on the sorted representation the
minimum is the head. -/
def heappop {α : Type} [LinearOrder α] (buf : List α) : Option (α × List α) :=
  match buf with
  | [] => none
  | x :: rest => some (x, rest)

/-- One queue operation at the strategy level: insert an item or extract one. -/
inductive StratOp (α : Type) where
  | put (x : α)
  | get

/-- Runs a sequence of strategy operations from a start buffer, returning the
final buffer together with the extracted items in extraction order.  A `get`
on a buffer the strategy cannot serve fails (`Empty` in the source) and
changes nothing. -/
def runStrat {α : Type} (p : List α → α → List α) (g : List α → Option (α × List α)) :
    List (StratOp α) → List α → List α × List α
  | [], buf => (buf, [])
  | StratOp.put x :: ops, buf => runStrat p g ops (p buf x)
  | StratOp.get :: ops, buf =>
    match g buf with
    | none => runStrat p g ops buf
    | some (x, buf2) =>
      let r := runStrat p g ops buf2
      (r.1, x :: r.2)

/-- Items inserted by a sequence of strategy operations, in insertion order. -/
def putsOf {α : Type} : List (StratOp α) → List α
  | [] => []
  | StratOp.put x :: ops => x :: putsOf ops
  | StratOp.get :: ops => putsOf ops

/-- FIFO discipline: the extracted items followed by the remaining buffer
reproduce the start buffer followed by the insertions, in order. -/
lemma fifo_run_eq {α : Type} : ∀ (ops : List (StratOp α)) (buf : List α),
    (runStrat fifo_put fifo_get ops buf).2 ++ (runStrat fifo_put fifo_get ops buf).1 =
      buf ++ putsOf ops := by
  intro ops
  induction ops with
  | nil => intro buf; simp [runStrat, putsOf]
  | cons op ops ih =>
    intro buf
    cases op with
    | put x =>
      simp only [runStrat, putsOf, fifo_put]
      rw [ih (buf ++ [x])]
      simp
    | get =>
      cases buf with
      | nil => simpa [runStrat, putsOf, fifo_get] using ih []
      | cons y rest =>
        simp only [runStrat, putsOf, fifo_get]
        rw [List.cons_append, ih rest]
        simp

/-- A strategy operation with the inserted item left implicit: the stamped
run below inserts consecutive timestamps so that each buffered value records
its own insertion time. -/
inductive TimedOp where
  | put
  | get

/-- Runs LIFO operations inserting the timestamps 0, 1, 2, ... so that each
buffered value equals its insertion index; returns the final buffer and the
next fresh timestamp. -/
def runLifoStamped : List TimedOp → List Nat → Nat → List Nat × Nat
  | [], buf, c => (buf, c)
  | TimedOp.put :: ops, buf, c => runLifoStamped ops (lifo_put buf c) (c + 1)
  | TimedOp.get :: ops, buf, c =>
    match lifo_get buf with
    | none => runLifoStamped ops buf c
    | some (_, buf2) => runLifoStamped ops buf2 c

lemma lifo_get_concat {α : Type} (buf : List α) (x : α) :
    lifo_get (buf ++ [x]) = some (x, buf) := by
  simp [lifo_get, List.getLast?_concat]

lemma lifo_get_nil {α : Type} : lifo_get ([] : List α) = none := rfl

/-- Invariant of the stamped LIFO run: the buffer is strictly increasing in
insertion time and every buffered stamp is older than the counter. -/
lemma lifo_stamped_invariant : ∀ (ops : List TimedOp) (buf : List Nat) (c : Nat),
    List.Sorted (· < ·) buf → (∀ y ∈ buf, y < c) →
    List.Sorted (· < ·) (runLifoStamped ops buf c).1 ∧
      ∀ y ∈ (runLifoStamped ops buf c).1, y < (runLifoStamped ops buf c).2 := by
  intro ops
  induction ops with
  | nil => intro buf c hs hb; exact ⟨hs, hb⟩
  | cons op ops ih =>
    intro buf c hs hb
    cases op with
    | put =>
      simp only [runLifoStamped, lifo_put]
      apply ih
      · refine List.pairwise_append.mpr ⟨hs, List.sorted_singleton c, ?_⟩
        intro a ha b hbm
        simp at hbm
        subst hbm
        exact hb a ha
      · intro y hy
        rcases List.mem_append.mp hy with h | h
        · exact Nat.lt_succ_of_lt (hb y h)
        · simp at h; omega
    | get =>
      rcases List.eq_nil_or_concat buf with rfl | ⟨L, a, rfl⟩
      · simpa [runLifoStamped, lifo_get_nil] using ih [] c hs hb
      · simp only [List.concat_eq_append] at hs hb ⊢
        simp only [runLifoStamped, lifo_get_concat]
        apply ih
        · exact hs.sublist (List.sublist_append_left L [a])
        · intro y hy; exact hb y (List.mem_append.mpr (Or.inl hy))

/-- On a strictly increasing buffer, the LIFO extraction returns a stamp
newer than every remaining one. -/
lemma lifo_get_max {buf : List Nat} (hs : List.Sorted (· < ·) buf)
    {x : Nat} {rest : List Nat} (h : lifo_get buf = some (x, rest)) :
    ∀ y ∈ rest, y < x := by
  rcases List.eq_nil_or_concat buf with rfl | ⟨L, a, rfl⟩
  · simp [lifo_get_nil] at h
  · simp only [List.concat_eq_append] at hs h
    rw [lifo_get_concat] at h
    cases h
    have hp := List.pairwise_append.mp hs
    intro y hy
    exact hp.2.2 y hy x (by simp)

/-- Invariant of the priority run: the sorted-list heap representation stays
sorted. -/
lemma prio_run_sorted {α : Type} [LinearOrder α] :
    ∀ (ops : List (StratOp α)) (buf : List α), List.Sorted (· ≤ ·) buf →
      List.Sorted (· ≤ ·) (runStrat heappush heappop ops buf).1 := by
  intro ops
  induction ops with
  | nil => intro buf hs; exact hs
  | cons op ops ih =>
    intro buf hs
    cases op with
    | put x =>
      exact ih _ (List.Sorted.orderedInsert x buf hs)
    | get =>
      cases buf with
      | nil => exact ih [] hs
      | cons y rest =>
        simp only [runStrat, heappop]
        exact ih rest (List.sorted_cons.mp hs).2

/-- On a sorted heap representation, the priority extraction returns an item
no greater than every remaining one. -/
lemma heappop_min {α : Type} [LinearOrder α] {buf : List α}
    (hs : List.Sorted (· ≤ ·) buf) {x : α} {rest : List α}
    (h : heappop buf = some (x, rest)) : ∀ y ∈ rest, x ≤ y := by
  cases buf with
  | nil => simp [heappop] at h
  | cons y r =>
    simp only [heappop, Option.some.injEq, Prod.mk.injEq] at h
    obtain ⟨rfl, rfl⟩ := h
    exact (List.sorted_cons.mp hs).1

/-! ## Shared queue state

`Queue.__init__` owns the buffer, `maxsize`, `_unfinished_tasks`, the
`_finished` event, `_closing`, the `_pending` job deque and the four waiter
counters.  The two mutexes and condition variables carry no state beyond the
notifications observed below. -/

/-- Kinds of notifier jobs tracked in `Queue._pending`. -/
inductive NotifyKind where
  | syncNotEmpty
  | syncNotFull
  | asyncNotEmpty
  | asyncNotFull
deriving DecidableEq

/-- An in-flight notifier job (an asyncio future or task held in
`Queue._pending`); `Queue.close` cancels it. -/
structure Job where
  kind : NotifyKind
  cancelled : Bool
deriving DecidableEq

/-- The shared state owned by `Queue`. -/
structure QState (α : Type) where
  maxsize : Int
  queue : List α
  unfinished_tasks : Int
  finished : Bool
  closing : Bool
  pending : List Job
  sync_not_empty_waiting : Nat
  sync_not_full_waiting : Nat
  async_not_empty_waiting : Nat
  async_not_full_waiting : Nat
deriving DecidableEq

/-- Embeds `Queue.__init__(maxsize)`: empty buffer, zero counters, the
`_finished` event initially set, not closing, no pending jobs. -/
def initState (α : Type) (maxsize : Int) : QState α where
  maxsize := maxsize
  queue := []
  unfinished_tasks := 0
  finished := true
  closing := false
  pending := []
  sync_not_empty_waiting := 0
  sync_not_full_waiting := 0
  async_not_empty_waiting := 0
  async_not_full_waiting := 0

/-- An ordering strategy: the overridable `_put`/`_get` pair of `Queue`. -/
structure Strategy (α : Type) where
  put : List α → α → List α
  get : List α → Option (α × List α)

/-- The base `Queue` strategy. -/
def fifoStrategy (α : Type) : Strategy α := ⟨fifo_put, fifo_get⟩

/-- The `LifoQueue` strategy. -/
def lifoStrategy (α : Type) : Strategy α := ⟨lifo_put, lifo_get⟩

/-- The `PriorityQueue` strategy. -/
def prioStrategy (α : Type) [LinearOrder α] : Strategy α := ⟨heappush, heappop⟩

/-- Embeds `Queue._qsize`. -/
def qsizeInternal {α : Type} (s : QState α) : Nat := s.queue.length

/-- Embeds `Queue._put_internal`: delegate to the strategy `_put`, increment
`_unfinished_tasks`, clear the `_finished` event. -/
def put_internal {α : Type} (st : Strategy α) (item : α) (s : QState α) : QState α :=
  { s with queue := st.put s.queue item,
           unfinished_tasks := s.unfinished_tasks + 1,
           finished := false }

/-- Notifications observed at one commit: which same-domain condition was
notified directly and which notifier job was issued towards each domain. -/
structure Notices where
  sync_not_empty_notified : Bool := false
  sync_not_full_notified : Bool := false
  async_not_empty_notified : Bool := false
  async_not_full_notified : Bool := false
  async_not_empty_job : Bool := false
  async_not_full_job : Bool := false
  sync_not_empty_job : Bool := false
  sync_not_full_job : Bool := false
deriving DecidableEq

/-- Embeds the commit of `_SyncQueueProxy.put` (also reached through its
`put_nowait`): `_put_internal`, then notify the sync not-empty condition when
sync waiters exist, and submit the async not-empty notifier to the event loop
when async waiters exist.  That job reaches `Queue._pending` later, on the
loop thread, so it is recorded here as an observation only. -/
def sync_put_commit {α : Type} (st : Strategy α) (item : α) (s : QState α) :
    QState α × Notices :=
  (put_internal st item s,
   { sync_not_empty_notified := s.sync_not_empty_waiting != 0,
     async_not_empty_job := s.async_not_empty_waiting != 0 })

/-- Embeds the commit of `_SyncQueueProxy.get` (also reached through its
`get_nowait`): `_get`, then notify the sync not-full condition when sync
waiters exist and submit the async not-full notifier when async waiters
exist. -/
def sync_get_commit {α : Type} (st : Strategy α) (s : QState α) :
    Option (α × QState α × Notices) :=
  match st.get s.queue with
  | none => none
  | some (x, rest) =>
    some (x, { s with queue := rest },
      { sync_not_full_notified := s.sync_not_full_waiting != 0,
        async_not_full_job := s.async_not_full_waiting != 0 })

/-- Embeds the commit of `_AsyncQueueProxy.put`: `_put_internal`, notify the
async not-empty condition when async waiters exist, and when sync waiters
exist run the sync not-empty notifier in an executor, appending its future to
`Queue._pending` at once. -/
def async_put_commit {α : Type} (st : Strategy α) (item : α) (s : QState α) :
    QState α × Notices :=
  ({ put_internal st item s with
      pending := s.pending ++
        (if s.sync_not_empty_waiting != 0 then [⟨NotifyKind.syncNotEmpty, false⟩] else []) },
   { async_not_empty_notified := s.async_not_empty_waiting != 0,
     sync_not_empty_job := s.sync_not_empty_waiting != 0 })

/-- Embeds the commit of `_AsyncQueueProxy.put_nowait`: `_put_internal`, then
create the async not-empty notifier task when async waiters exist and run the
sync not-empty notifier in an executor when sync waiters exist; both jobs
enter `Queue._pending` at once, in that order. -/
def async_put_nowait_commit {α : Type} (st : Strategy α) (item : α) (s : QState α) :
    QState α × Notices :=
  ({ put_internal st item s with
      pending := s.pending ++
        (if s.async_not_empty_waiting != 0 then [⟨NotifyKind.asyncNotEmpty, false⟩] else []) ++
        (if s.sync_not_empty_waiting != 0 then [⟨NotifyKind.syncNotEmpty, false⟩] else []) },
   { async_not_empty_job := s.async_not_empty_waiting != 0,
     sync_not_empty_job := s.sync_not_empty_waiting != 0 })

/-- Embeds the commit of `_AsyncQueueProxy.get`: `_get`, notify the async
not-full condition when async waiters exist, and when sync waiters exist run
the sync not-full notifier in an executor, appending its future to
`Queue._pending` at once. -/
def async_get_commit {α : Type} (st : Strategy α) (s : QState α) :
    Option (α × QState α × Notices) :=
  match st.get s.queue with
  | none => none
  | some (x, rest) =>
    some (x,
      { s with queue := rest,
               pending := s.pending ++
                 (if s.sync_not_full_waiting != 0 then [⟨NotifyKind.syncNotFull, false⟩] else []) },
      { async_not_full_notified := s.async_not_full_waiting != 0,
        sync_not_full_job := s.sync_not_full_waiting != 0 })

/-- Embeds the commit of `_AsyncQueueProxy.get_nowait`: `_get`, then create
the async not-full notifier task when async waiters exist and run the sync
not-full notifier in an executor when sync waiters exist; both jobs enter
`Queue._pending` at once, in that order. -/
def async_get_nowait_commit {α : Type} (st : Strategy α) (s : QState α) :
    Option (α × QState α × Notices) :=
  match st.get s.queue with
  | none => none
  | some (x, rest) =>
    some (x,
      { s with queue := rest,
               pending := s.pending ++
                 (if s.async_not_full_waiting != 0 then [⟨NotifyKind.asyncNotFull, false⟩] else []) ++
                 (if s.sync_not_full_waiting != 0 then [⟨NotifyKind.syncNotFull, false⟩] else []) },
      { async_not_full_job := s.async_not_full_waiting != 0,
        sync_not_full_job := s.sync_not_full_waiting != 0 })

/-- Failure modes, following the spec error taxonomy: `closed` is the
closed-queue RuntimeError, `full` and `empty` the two queue module
exceptions, `tooManyCompletions` and `invalidTimeout` the two ValueError
cases, `shutdownOrdering` the RuntimeError of `wait_closed` before `close`. -/
inductive Err where
  | closed
  | full
  | empty
  | tooManyCompletions
  | invalidTimeout
  | shutdownOrdering
deriving DecidableEq

/-- Result of one call in single-caller semantics: a normal return, a raised
error (the raising paths of the source mutate no state; transient waiter
counter bumps are undone in the `try/finally` around each wait), or an
unbounded wait that no other actor is present to end. -/
inductive Res (β : Type) where
  | ok (v : β)
  | err (e : Err)
  | blocks
deriving DecidableEq

/-- Embeds `_SyncQueueProxy.put(item, block, timeout)`.  The timeout stands
in for the source float: only its sign matters, and a wait on a predicate no
other actor changes either blocks forever (no timeout) or ends with `Full`
once the monotonic deadline passes. -/
def sync_put {α : Type} (st : Strategy α) (item : α) (block : Bool)
    (timeout : Option Int) (s : QState α) : Res (QState α × Notices) :=
  if s.closing then Res.err Err.closed
  else if 0 < s.maxsize then
    if !block then
      if s.maxsize ≤ (qsizeInternal s : Int) then Res.err Err.full
      else Res.ok (sync_put_commit st item s)
    else
      match timeout with
      | none =>
        if s.maxsize ≤ (qsizeInternal s : Int) then Res.blocks
        else Res.ok (sync_put_commit st item s)
      | some t =>
        if t < 0 then Res.err Err.invalidTimeout
        else if s.maxsize ≤ (qsizeInternal s : Int) then Res.err Err.full
        else Res.ok (sync_put_commit st item s)
  else Res.ok (sync_put_commit st item s)

/-- Embeds `_SyncQueueProxy.get(block, timeout)`; the inner `Err.empty`
fallbacks are dead code for the three strategies of this module, whose `_get`
succeeds on every nonempty buffer. -/
def sync_get {α : Type} (st : Strategy α) (block : Bool) (timeout : Option Int)
    (s : QState α) : Res (α × QState α × Notices) :=
  if s.closing then Res.err Err.closed
  else if !block then
    if qsizeInternal s = 0 then Res.err Err.empty
    else
      match sync_get_commit st s with
      | some r => Res.ok r
      | none => Res.err Err.empty
  else
    match timeout with
    | none =>
      if qsizeInternal s = 0 then Res.blocks
      else
        match sync_get_commit st s with
        | some r => Res.ok r
        | none => Res.err Err.empty
    | some t =>
      if t < 0 then Res.err Err.invalidTimeout
      else if qsizeInternal s = 0 then Res.err Err.empty
      else
        match sync_get_commit st s with
        | some r => Res.ok r
        | none => Res.err Err.empty

/-- Embeds `_SyncQueueProxy.put_nowait`. -/
def sync_put_nowait {α : Type} (st : Strategy α) (item : α) (s : QState α) :
    Res (QState α × Notices) :=
  sync_put st item false none s

/-- Embeds `_SyncQueueProxy.get_nowait`. -/
def sync_get_nowait {α : Type} (st : Strategy α) (s : QState α) :
    Res (α × QState α × Notices) :=
  sync_get st false none s

/-- Embeds `_AsyncQueueProxy.put`. -/
def async_put {α : Type} (st : Strategy α) (item : α) (s : QState α) :
    Res (QState α × Notices) :=
  if s.closing then Res.err Err.closed
  else if 0 < s.maxsize ∧ s.maxsize ≤ (qsizeInternal s : Int) then Res.blocks
  else Res.ok (async_put_commit st item s)

/-- Embeds `_AsyncQueueProxy.put_nowait`. -/
def async_put_nowait {α : Type} (st : Strategy α) (item : α) (s : QState α) :
    Res (QState α × Notices) :=
  if s.closing then Res.err Err.closed
  else if 0 < s.maxsize ∧ s.maxsize ≤ (qsizeInternal s : Int) then Res.err Err.full
  else Res.ok (async_put_nowait_commit st item s)

/-- Embeds `_AsyncQueueProxy.get`. -/
def async_get {α : Type} (st : Strategy α) (s : QState α) :
    Res (α × QState α × Notices) :=
  if s.closing then Res.err Err.closed
  else if qsizeInternal s = 0 then Res.blocks
  else
    match async_get_commit st s with
    | some r => Res.ok r
    | none => Res.err Err.empty

/-- Embeds `_AsyncQueueProxy.get_nowait`. -/
def async_get_nowait {α : Type} (st : Strategy α) (s : QState α) :
    Res (α × QState α × Notices) :=
  if s.closing then Res.err Err.closed
  else if qsizeInternal s = 0 then Res.err Err.empty
  else
    match async_get_nowait_commit st s with
    | some r => Res.ok r
    | none => Res.err Err.empty

/-- Embeds `_SyncQueueProxy.task_done`.  On reaching zero the source routes
`_finished.set` through `call_soon_threadsafe`; it is modelled as taking
effect at once (a no-op when no event loop was ever bound, which no claim
here depends on). -/
def sync_task_done {α : Type} (s : QState α) : Res (QState α) :=
  if s.closing then Res.err Err.closed
  else if s.unfinished_tasks - 1 ≤ 0 then
    if s.unfinished_tasks - 1 < 0 then Res.err Err.tooManyCompletions
    else Res.ok { s with unfinished_tasks := s.unfinished_tasks - 1, finished := true }
  else Res.ok { s with unfinished_tasks := s.unfinished_tasks - 1 }

/-- Embeds `_AsyncQueueProxy.task_done`. -/
def async_task_done {α : Type} (s : QState α) : Res (QState α) :=
  if s.closing then Res.err Err.closed
  else if s.unfinished_tasks ≤ 0 then Res.err Err.tooManyCompletions
  else if s.unfinished_tasks - 1 = 0 then
    Res.ok { s with unfinished_tasks := s.unfinished_tasks - 1, finished := true }
  else Res.ok { s with unfinished_tasks := s.unfinished_tasks - 1 }

/-- Embeds `_SyncQueueProxy.join` in single-caller semantics: the wait on
`_all_tasks_done` can only end through another actor. -/
def sync_join {α : Type} (s : QState α) : Res Unit :=
  if s.closing then Res.err Err.closed
  else if s.unfinished_tasks = 0 then Res.ok ()
  else Res.blocks

/-- Embeds `_AsyncQueueProxy.join` in single-caller semantics. -/
def async_join {α : Type} (s : QState α) : Res Unit :=
  if s.closing then Res.err Err.closed
  else if s.unfinished_tasks = 0 then Res.ok ()
  else Res.blocks

/-- Embeds `Queue.close`: raise the closing flag, cancel every pending
notifier job, set the `_finished` event.  The two `notify_all` calls wake
waiters but carry no state of their own. -/
def close {α : Type} (s : QState α) : QState α :=
  { s with closing := true,
           pending := s.pending.map (fun j => { j with cancelled := true }),
           finished := true }

/-- Embeds the `Queue.closed` property: `self._closing and not self._pending`. -/
def closedProp {α : Type} (s : QState α) : Bool :=
  s.closing && s.pending.isEmpty

/-- Embeds `Queue.wait_closed` at call-outcome level: a RuntimeError when
called before `close`, otherwise it awaits the already scheduled or cancelled
pending jobs, which terminate. -/
def wait_closed {α : Type} (s : QState α) : Res Unit :=
  if !s.closing then Res.err Err.shutdownOrdering else Res.ok ()

/-- Embeds `Queue.aclose`: `close` followed by `wait_closed`. -/
def aclose {α : Type} (s : QState α) : Res (QState α) :=
  match wait_closed (close s) with
  | Res.ok _ => Res.ok (close s)
  | Res.err e => Res.err e
  | Res.blocks => Res.blocks

/-- Embeds `_SyncQueueProxy.qsize`: returns `parent._qsize()`.  The source
performs no closing check on any of the size or capacity queries, so no
error path exists; the `Res` wrapper records exactly that. -/
def sync_qsize {α : Type} (s : QState α) : Res Nat := Res.ok (qsizeInternal s)

/-- Embeds `_SyncQueueProxy.empty`: `not parent._qsize()`. -/
def sync_empty {α : Type} (s : QState α) : Res Bool :=
  Res.ok (qsizeInternal s == 0)

/-- Embeds `_SyncQueueProxy.full`: `0 < parent._maxsize <= parent._qsize()`. -/
def sync_full {α : Type} (s : QState α) : Res Bool :=
  Res.ok (decide (0 < s.maxsize ∧ s.maxsize ≤ (qsizeInternal s : Int)))

/-- Embeds the `maxsize` property of both proxies. -/
def proxy_maxsize {α : Type} (s : QState α) : Res Int := Res.ok s.maxsize

/-- Embeds the `unfinished_tasks` property of both proxies. -/
def proxy_unfinished {α : Type} (s : QState α) : Res Int :=
  Res.ok s.unfinished_tasks

/-- Embeds `_AsyncQueueProxy.qsize`. -/
def async_qsize {α : Type} (s : QState α) : Res Nat := Res.ok (qsizeInternal s)

/-- Embeds `_AsyncQueueProxy.empty`: `self.qsize() == 0`. -/
def async_empty {α : Type} (s : QState α) : Res Bool :=
  Res.ok (qsizeInternal s == 0)

/-- Embeds `_AsyncQueueProxy.full`: `False` when `maxsize <= 0`, otherwise
`qsize() >= maxsize`. -/
def async_full {α : Type} (s : QState α) : Res Bool :=
  Res.ok (if s.maxsize ≤ 0 then false
          else decide (s.maxsize ≤ (qsizeInternal s : Int)))

/-- Embeds entering a wait on the sync not-full condition:
`_sync_not_full_waiting += 1`. -/
def begin_wait_sync_not_full {α : Type} (s : QState α) : QState α :=
  { s with sync_not_full_waiting := s.sync_not_full_waiting + 1 }

/-- Embeds leaving a wait on the sync not-full condition (the `finally`
branch): `_sync_not_full_waiting -= 1`. -/
def end_wait_sync_not_full {α : Type} (s : QState α) : QState α :=
  { s with sync_not_full_waiting := s.sync_not_full_waiting - 1 }

/-! ## Lawfulness of the strategies and the small-step system -/

/-- Size accounting shared by the three strategies: `_put` grows the buffer
by one item, `_get` fails exactly on the empty buffer and shrinks it by one. -/
structure GoodStrategy {α : Type} (st : Strategy α) : Prop where
  put_length : ∀ b x, (st.put b x).length = b.length + 1
  get_none : ∀ b, st.get b = none ↔ b = []
  get_length : ∀ b x r, st.get b = some (x, r) → r.length + 1 = b.length

lemma fifo_good (α : Type) : GoodStrategy (fifoStrategy α) := by
  refine ⟨?_, ?_, ?_⟩
  · intro b x; simp [fifoStrategy, fifo_put]
  · intro b; cases b <;> simp [fifoStrategy, fifo_get]
  · intro b x r h
    cases b with
    | nil => simp [fifoStrategy, fifo_get] at h
    | cons y ys =>
      simp only [fifoStrategy, fifo_get, Option.some.injEq, Prod.mk.injEq] at h
      obtain ⟨rfl, rfl⟩ := h
      simp

lemma lifo_good (α : Type) : GoodStrategy (lifoStrategy α) := by
  refine ⟨?_, ?_, ?_⟩
  · intro b x; simp [lifoStrategy, lifo_put]
  · intro b
    rcases List.eq_nil_or_concat b with rfl | ⟨L, a, rfl⟩
    · simp [lifoStrategy, lifo_get_nil]
    · simp [lifoStrategy, List.concat_eq_append, lifo_get_concat]
  · intro b x r h
    rcases List.eq_nil_or_concat b with rfl | ⟨L, a, rfl⟩
    · simp [lifoStrategy, lifo_get_nil] at h
    · simp only [lifoStrategy, List.concat_eq_append, lifo_get_concat,
        Option.some.injEq, Prod.mk.injEq] at h
      obtain ⟨rfl, rfl⟩ := h
      simp

lemma prio_good (α : Type) [LinearOrder α] : GoodStrategy (prioStrategy α) := by
  refine ⟨?_, ?_, ?_⟩
  · intro b x; simpa [prioStrategy, heappush] using List.orderedInsert_length (· ≤ ·) b x
  · intro b; cases b <;> simp [prioStrategy, heappop]
  · intro b x r h
    cases b with
    | nil => simp [prioStrategy, heappop] at h
    | cons y ys =>
      simp only [prioStrategy, heappop, Option.some.injEq, Prod.mk.injEq] at h
      obtain ⟨rfl, rfl⟩ := h
      simp

/-- Characterizes a successful `sync_get_commit`. -/
lemma sync_get_commit_eq {α : Type} {st : Strategy α} {s : QState α} {x : α}
    {r : QState α} {n : Notices} (h : sync_get_commit st s = some (x, r, n)) :
    st.get s.queue = some (x, r.queue) ∧
    r.maxsize = s.maxsize ∧ r.unfinished_tasks = s.unfinished_tasks ∧
    r.finished = s.finished ∧ r.closing = s.closing ∧ r.pending = s.pending ∧
    n = { sync_not_full_notified := s.sync_not_full_waiting != 0,
          async_not_full_job := s.async_not_full_waiting != 0 } := by
  unfold sync_get_commit at h
  cases hg : st.get s.queue with
  | none => rw [hg] at h; cases h
  | some p =>
    obtain ⟨y, rest⟩ := p
    rw [hg] at h
    simp only [Option.some.injEq, Prod.mk.injEq] at h
    obtain ⟨rfl, rfl, rfl⟩ := h
    exact ⟨rfl, rfl, rfl, rfl, rfl, rfl, rfl⟩

/-- Characterizes a successful `async_get_commit`. -/
lemma async_get_commit_eq {α : Type} {st : Strategy α} {s : QState α} {x : α}
    {r : QState α} {n : Notices} (h : async_get_commit st s = some (x, r, n)) :
    st.get s.queue = some (x, r.queue) ∧
    r.maxsize = s.maxsize ∧ r.unfinished_tasks = s.unfinished_tasks ∧
    r.finished = s.finished ∧ r.closing = s.closing ∧
    r.pending = s.pending ++
      (if s.sync_not_full_waiting != 0 then [⟨NotifyKind.syncNotFull, false⟩] else []) ∧
    n = { async_not_full_notified := s.async_not_full_waiting != 0,
          sync_not_full_job := s.sync_not_full_waiting != 0 } := by
  unfold async_get_commit at h
  cases hg : st.get s.queue with
  | none => rw [hg] at h; cases h
  | some p =>
    obtain ⟨y, rest⟩ := p
    rw [hg] at h
    simp only [Option.some.injEq, Prod.mk.injEq] at h
    obtain ⟨rfl, rfl, rfl⟩ := h
    exact ⟨rfl, rfl, rfl, rfl, rfl, rfl, rfl⟩

/-- Characterizes a successful `async_get_nowait_commit`. -/
lemma async_get_nowait_commit_eq {α : Type} {st : Strategy α} {s : QState α}
    {x : α} {r : QState α} {n : Notices}
    (h : async_get_nowait_commit st s = some (x, r, n)) :
    st.get s.queue = some (x, r.queue) ∧
    r.maxsize = s.maxsize ∧ r.unfinished_tasks = s.unfinished_tasks ∧
    r.finished = s.finished ∧ r.closing = s.closing ∧
    r.pending = s.pending ++
      (if s.async_not_full_waiting != 0 then [⟨NotifyKind.asyncNotFull, false⟩] else []) ++
      (if s.sync_not_full_waiting != 0 then [⟨NotifyKind.syncNotFull, false⟩] else []) ∧
    n = { async_not_full_job := s.async_not_full_waiting != 0,
          sync_not_full_job := s.sync_not_full_waiting != 0 } := by
  unfold async_get_nowait_commit at h
  cases hg : st.get s.queue with
  | none => rw [hg] at h; cases h
  | some p =>
    obtain ⟨y, rest⟩ := p
    rw [hg] at h
    simp only [Option.some.injEq, Prod.mk.injEq] at h
    obtain ⟨rfl, rfl, rfl⟩ := h
    exact ⟨rfl, rfl, rfl, rfl, rfl, rfl, rfl⟩

/-- A successful `sync_put` produced exactly the sync commit. -/
lemma sync_put_ok {α : Type} {st : Strategy α} {item : α} {block : Bool}
    {timeout : Option Int} {s s' : QState α} {n : Notices}
    (h : sync_put st item block timeout s = Res.ok (s', n)) :
    (s', n) = sync_put_commit st item s := by
  unfold sync_put at h
  cases block <;> cases timeout <;>
    (repeat' split at h) <;>
    first
      | exact Res.noConfusion h
      | exact (Res.ok.inj h).symm

/-- A successful `sync_put` never starts from a closed queue nor commits on a
full bounded queue. -/
lemma sync_put_ok_pre {α : Type} {st : Strategy α} {item : α} {block : Bool}
    {timeout : Option Int} {s s' : QState α} {n : Notices}
    (h : sync_put st item block timeout s = Res.ok (s', n)) :
    s.closing = false ∧ (0 < s.maxsize → (qsizeInternal s : Int) < s.maxsize) := by
  unfold sync_put at h
  cases block <;> cases timeout <;>
    (repeat' split at h) <;>
    first
      | exact Res.noConfusion h
      | exact ⟨by simp_all, fun hm => by omega⟩

/-- A successful `sync_get` produced exactly the sync get commit. -/
lemma sync_get_ok {α : Type} {st : Strategy α} {block : Bool}
    {timeout : Option Int} {s : QState α} {x : α} {s' : QState α} {n : Notices}
    (h : sync_get st block timeout s = Res.ok (x, s', n)) :
    s.closing = false ∧ sync_get_commit st s = some (x, s', n) := by
  unfold sync_get at h
  cases block <;> cases timeout <;>
    (repeat' split at h) <;>
    first
      | exact Res.noConfusion h
      | exact ⟨by simp_all, by simp_all⟩

/-- A successful `async_put` produced exactly the async commit. -/
lemma async_put_ok {α : Type} {st : Strategy α} {item : α} {s s' : QState α}
    {n : Notices} (h : async_put st item s = Res.ok (s', n)) :
    (s', n) = async_put_commit st item s := by
  unfold async_put at h
  repeat' split at h
  all_goals first
    | exact Res.noConfusion h
    | exact (Res.ok.inj h).symm

/-- A successful `async_put` never starts from a closed queue nor commits on
a full bounded queue. -/
lemma async_put_ok_pre {α : Type} {st : Strategy α} {item : α} {s s' : QState α}
    {n : Notices} (h : async_put st item s = Res.ok (s', n)) :
    s.closing = false ∧ (0 < s.maxsize → (qsizeInternal s : Int) < s.maxsize) := by
  unfold async_put at h
  split_ifs at h with h1 h2
  all_goals first
    | exact Res.noConfusion h
    | exact ⟨by simp_all, fun hm => by rcases not_and_or.mp h2 with hc | hc <;> omega⟩

/-- A successful `async_put_nowait` produced exactly its commit. -/
lemma async_put_nowait_ok {α : Type} {st : Strategy α} {item : α}
    {s s' : QState α} {n : Notices}
    (h : async_put_nowait st item s = Res.ok (s', n)) :
    (s', n) = async_put_nowait_commit st item s := by
  unfold async_put_nowait at h
  repeat' split at h
  all_goals first
    | exact Res.noConfusion h
    | exact (Res.ok.inj h).symm

/-- A successful `async_put_nowait` never starts from a closed queue nor
commits on a full bounded queue. -/
lemma async_put_nowait_ok_pre {α : Type} {st : Strategy α} {item : α}
    {s s' : QState α} {n : Notices}
    (h : async_put_nowait st item s = Res.ok (s', n)) :
    s.closing = false ∧ (0 < s.maxsize → (qsizeInternal s : Int) < s.maxsize) := by
  unfold async_put_nowait at h
  split_ifs at h with h1 h2
  all_goals first
    | exact Res.noConfusion h
    | exact ⟨by simp_all, fun hm => by rcases not_and_or.mp h2 with hc | hc <;> omega⟩

/-- A successful `async_get` produced exactly the async get commit. -/
lemma async_get_ok {α : Type} {st : Strategy α} {s : QState α} {x : α}
    {s' : QState α} {n : Notices} (h : async_get st s = Res.ok (x, s', n)) :
    s.closing = false ∧ async_get_commit st s = some (x, s', n) := by
  unfold async_get at h
  repeat' split at h
  all_goals first
    | exact Res.noConfusion h
    | exact ⟨by simp_all, by simp_all⟩

/-- A successful `async_get_nowait` produced exactly its commit. -/
lemma async_get_nowait_ok {α : Type} {st : Strategy α} {s : QState α} {x : α}
    {s' : QState α} {n : Notices}
    (h : async_get_nowait st s = Res.ok (x, s', n)) :
    s.closing = false ∧ async_get_nowait_commit st s = some (x, s', n) := by
  unfold async_get_nowait at h
  repeat' split at h
  all_goals first
    | exact Res.noConfusion h
    | exact ⟨by simp_all, by simp_all⟩

/-- A successful `sync_task_done` decremented a positive counter and touched
nothing else but the finished flag. -/
lemma sync_task_done_ok {α : Type} {s s' : QState α}
    (h : sync_task_done s = Res.ok s') :
    s.closing = false ∧ 1 ≤ s.unfinished_tasks ∧
    s'.unfinished_tasks = s.unfinished_tasks - 1 ∧ s'.queue = s.queue ∧
    s'.maxsize = s.maxsize ∧ s'.closing = s.closing ∧ s'.pending = s.pending := by
  unfold sync_task_done at h
  split_ifs at h with h1 h2 h3
  all_goals first
    | exact Res.noConfusion h
    | (have h4 := (Res.ok.inj h).symm
       subst h4
       exact ⟨by simp_all, by omega, rfl, rfl, rfl, rfl, rfl⟩)

/-- A successful `async_task_done` decremented a positive counter and touched
nothing else but the finished flag. -/
lemma async_task_done_ok {α : Type} {s s' : QState α}
    (h : async_task_done s = Res.ok s') :
    s.closing = false ∧ 1 ≤ s.unfinished_tasks ∧
    s'.unfinished_tasks = s.unfinished_tasks - 1 ∧ s'.queue = s.queue ∧
    s'.maxsize = s.maxsize ∧ s'.closing = s.closing ∧ s'.pending = s.pending := by
  unfold async_task_done at h
  split_ifs at h with h1 h2 h3
  all_goals first
    | exact Res.noConfusion h
    | (have h4 := (Res.ok.inj h).symm
       subst h4
       exact ⟨by simp_all, by omega, rfl, rfl, rfl, rfl, rfl⟩)

/-- The waiter counter named by a kind. -/
def waiterCount {α : Type} (k : NotifyKind) (s : QState α) : Nat :=
  match k with
  | NotifyKind.syncNotEmpty => s.sync_not_empty_waiting
  | NotifyKind.syncNotFull => s.sync_not_full_waiting
  | NotifyKind.asyncNotEmpty => s.async_not_empty_waiting
  | NotifyKind.asyncNotFull => s.async_not_full_waiting

/-- Overwrites the waiter counter named by a kind. -/
def setWaiterCount {α : Type} (k : NotifyKind) (v : Nat) (s : QState α) : QState α :=
  match k with
  | NotifyKind.syncNotEmpty => { s with sync_not_empty_waiting := v }
  | NotifyKind.syncNotFull => { s with sync_not_full_waiting := v }
  | NotifyKind.asyncNotEmpty => { s with async_not_empty_waiting := v }
  | NotifyKind.asyncNotFull => { s with async_not_full_waiting := v }

/-- Atomic mutex-held transitions of the shared state.  Each put commit
carries the guard established by the source: every path to `_put_internal`
of a bounded queue re-checks `qsize < maxsize` under the mutex immediately
before committing (the nowait checks and the wait-loop exit conditions), and
every path to `_get` first checks `qsize > 0` under the mutex.  The other
transitions are the counter bumps around waits, job retirement from
`_pending`, `task_done` and `close`. -/
inductive Step {α : Type} (st : Strategy α) : QState α → QState α → Prop where
  | sync_put_step (item : α) (s : QState α)
      (h : s.maxsize ≤ 0 ∨ (qsizeInternal s : Int) < s.maxsize) :
      Step st s (sync_put_commit st item s).1
  | async_put_step (item : α) (s : QState α)
      (h : s.maxsize ≤ 0 ∨ (qsizeInternal s : Int) < s.maxsize) :
      Step st s (async_put_commit st item s).1
  | async_put_nowait_step (item : α) (s : QState α)
      (h : s.maxsize ≤ 0 ∨ (qsizeInternal s : Int) < s.maxsize) :
      Step st s (async_put_nowait_commit st item s).1
  | sync_get_step (s : QState α) (x : α) (r : QState α) (n : Notices)
      (h : sync_get_commit st s = some (x, r, n)) : Step st s r
  | async_get_step (s : QState α) (x : α) (r : QState α) (n : Notices)
      (h : async_get_commit st s = some (x, r, n)) : Step st s r
  | async_get_nowait_step (s : QState α) (x : α) (r : QState α) (n : Notices)
      (h : async_get_nowait_commit st s = some (x, r, n)) : Step st s r
  | sync_task_done_step (s s' : QState α) (h : sync_task_done s = Res.ok s') :
      Step st s s'
  | async_task_done_step (s s' : QState α) (h : async_task_done s = Res.ok s') :
      Step st s s'
  | close_step (s : QState α) : Step st s (close s)
  | wait_enter (k : NotifyKind) (s : QState α) :
      Step st s (setWaiterCount k (waiterCount k s + 1) s)
  | wait_exit (k : NotifyKind) (s : QState α) :
      Step st s (setWaiterCount k (waiterCount k s - 1) s)
  | job_retire (j : Job) (s : QState α) (h : j ∈ s.pending) :
      Step st s { s with pending := s.pending.erase j }

/-- States reachable from a start state through atomic transitions. -/
def ReachableFrom {α : Type} (st : Strategy α) (s0 s : QState α) : Prop :=
  Relation.ReflTransGen (Step st) s0 s

/-- Inductive invariant: the capacity never changes, a bounded buffer holds
at most `maxsize` items, and the completion counter is never negative. -/
def Inv {α : Type} (m : Int) (s : QState α) : Prop :=
  s.maxsize = m ∧ (0 < m → (s.queue.length : Int) ≤ m) ∧ 0 ≤ s.unfinished_tasks

lemma inv_init {α : Type} (m : Int) : Inv m (initState α m) := by
  refine ⟨rfl, fun h => ?_, by simp [initState]⟩
  simp only [initState, List.length_nil, Nat.cast_zero]
  omega

lemma step_inv {α : Type} {st : Strategy α} (gs : GoodStrategy st) {m : Int}
    {s s' : QState α} (hi : Inv m s) (hs : Step st s s') : Inv m s' := by
  obtain ⟨hm, hb, hu⟩ := hi
  cases hs with
  | sync_put_step item s h =>
    refine ⟨hm, fun h0 => ?_, by simp [sync_put_commit, put_internal]; omega⟩
    simp only [sync_put_commit, put_internal]
    rw [gs.put_length]
    rcases h with h | h
    · omega
    · simp only [qsizeInternal] at h; push_cast; omega
  | async_put_step item s h =>
    refine ⟨hm, fun h0 => ?_, by simp [async_put_commit, put_internal]; omega⟩
    simp only [async_put_commit, put_internal]
    rw [gs.put_length]
    rcases h with h | h
    · omega
    · simp only [qsizeInternal] at h; push_cast; omega
  | async_put_nowait_step item s h =>
    refine ⟨hm, fun h0 => ?_, by simp [async_put_nowait_commit, put_internal]; omega⟩
    simp only [async_put_nowait_commit, put_internal]
    rw [gs.put_length]
    rcases h with h | h
    · omega
    · simp only [qsizeInternal] at h; push_cast; omega
  | sync_get_step s x r n h =>
    obtain ⟨hg, h1, h2, _, _, _, _⟩ := sync_get_commit_eq h
    have hl := gs.get_length _ _ _ hg
    refine ⟨h1.trans hm, fun h0 => ?_, h2 ▸ hu⟩
    have := hb h0
    omega
  | async_get_step s x r n h =>
    obtain ⟨hg, h1, h2, _, _, _, _⟩ := async_get_commit_eq h
    have hl := gs.get_length _ _ _ hg
    refine ⟨h1.trans hm, fun h0 => ?_, h2 ▸ hu⟩
    have := hb h0
    omega
  | async_get_nowait_step s x r n h =>
    obtain ⟨hg, h1, h2, _, _, _, _⟩ := async_get_nowait_commit_eq h
    have hl := gs.get_length _ _ _ hg
    refine ⟨h1.trans hm, fun h0 => ?_, h2 ▸ hu⟩
    have := hb h0
    omega
  | sync_task_done_step s s' h =>
    obtain ⟨_, h1, h2, h3, h4, _, _⟩ := sync_task_done_ok h
    exact ⟨h4.trans hm, fun h0 => h3 ▸ hb h0, by omega⟩
  | async_task_done_step s s' h =>
    obtain ⟨_, h1, h2, h3, h4, _, _⟩ := async_task_done_ok h
    exact ⟨h4.trans hm, fun h0 => h3 ▸ hb h0, by omega⟩
  | close_step s => exact ⟨hm, hb, hu⟩
  | wait_enter k s => cases k <;> exact ⟨hm, hb, hu⟩
  | wait_exit k s => cases k <;> exact ⟨hm, hb, hu⟩
  | job_retire j s h => exact ⟨hm, hb, hu⟩

/-- The invariant holds in every state reachable from a fresh queue. -/
lemma reachable_inv {α : Type} {st : Strategy α} (gs : GoodStrategy st)
    {m : Int} {s : QState α} (h : ReachableFrom st (initState α m) s) :
    Inv m s := by
  induction h with
  | refl => exact inv_init m
  | tail h1 h2 ih => exact step_inv gs ih h2

/-! ## Sample states used by the claim witnesses -/

/-- A sample state: one buffered item, every waiter counter at one. -/
def sampleState : QState Nat :=
  { initState Nat 0 with
    queue := [3]
    sync_not_empty_waiting := 1
    sync_not_full_waiting := 1
    async_not_empty_waiting := 1
    async_not_full_waiting := 1 }

/-- A sample state with one notifier job still pending. -/
def pendingState : QState Nat :=
  { initState Nat 0 with pending := [⟨NotifyKind.syncNotEmpty, false⟩] }

/-- A sample state with one buffered item and one completed put. -/
def getSample : QState Nat :=
  { initState Nat 0 with queue := [4], unfinished_tasks := 1 }

/-! ## The claims -/

/-- C1: for every sequence of put/get operations that respects capacity, the
FIFO strategy (`Queue`) returns items in insertion order, the LIFO strategy
(`LifoQueue`) returns the most recently inserted item first (stamped run:
every remaining stamp is older than the extracted one), and the priority
strategy (`PriorityQueue`) returns the minimum item first according to the
item ordering. -/
theorem strategy_ordering {α : Type} [LinearOrder α]
    (opsF : List (StratOp α)) (opsL : List TimedOp) (opsP : List (StratOp α)) :
    (runStrat fifo_put fifo_get opsF []).2 ++ (runStrat fifo_put fifo_get opsF []).1 =
      putsOf opsF ∧
    (∀ x rest, lifo_get (runLifoStamped opsL [] 0).1 = some (x, rest) →
      ∀ y ∈ rest, y < x) ∧
    (∀ x rest, heappop (runStrat heappush heappop opsP []).1 = some (x, rest) →
      ∀ y ∈ rest, x ≤ y) := by
  refine ⟨by simpa using fifo_run_eq opsF [], ?_, ?_⟩
  · intro x rest h
    have hinv := lifo_stamped_invariant opsL [] 0 (by simp) (by simp)
    exact lifo_get_max hinv.1 h
  · intro x rest h
    exact heappop_min (prio_run_sorted opsP [] (by simp)) h

/-- Witness for the C1 theorem at concrete runs of all three strategies. -/
theorem strategy_ordering_witness :
    ((runStrat fifo_put fifo_get [StratOp.put 5, StratOp.put 7, StratOp.get] []).2 ++
        (runStrat fifo_put fifo_get [StratOp.put 5, StratOp.put 7, StratOp.get] []).1 =
      putsOf [StratOp.put (5 : Nat), StratOp.put 7, StratOp.get]) ∧
    (∀ y ∈ [0], y < 1) ∧ (∀ y ∈ [3], (2 : Nat) ≤ y) := by
  have h := strategy_ordering ([StratOp.put 5, StratOp.put 7, StratOp.get] : List (StratOp Nat))
    [TimedOp.put, TimedOp.put] [StratOp.put 3, StratOp.put 2]
  exact ⟨h.1, h.2.1 1 [0] (by decide), h.2.2 2 [3] (by decide)⟩

/-- C2: for every queue constructed with `maxsize > 0`, the buffer size seen
under the mutex never exceeds `maxsize` in any reachable state, and no put
variant (blocking, suspending or nowait, on either facade) returns
successfully from a state whose buffer already holds `maxsize` items. -/
theorem bounded_capacity {α : Type} {st : Strategy α} (gs : GoodStrategy st)
    {m : Int} (hm : 0 < m) {s : QState α}
    (hreach : ReachableFrom st (initState α m) s) :
    (s.queue.length : Int) ≤ m ∧
    ∀ (s2 : QState α) (item : α) (block : Bool) (timeout : Option Int),
      0 < s2.maxsize → s2.maxsize ≤ (qsizeInternal s2 : Int) →
      (∀ r, sync_put st item block timeout s2 ≠ Res.ok r) ∧
      (∀ r, async_put st item s2 ≠ Res.ok r) ∧
      (∀ r, async_put_nowait st item s2 ≠ Res.ok r) := by
  constructor
  · exact (reachable_inv gs hreach).2.1 hm
  · intro s2 item block timeout h0 hfull
    refine ⟨?_, ?_, ?_⟩
    · intro r hr
      obtain ⟨r1, r2⟩ := r
      have := (sync_put_ok_pre hr).2 h0
      omega
    · intro r hr
      obtain ⟨r1, r2⟩ := r
      have := (async_put_ok_pre hr).2 h0
      omega
    · intro r hr
      obtain ⟨r1, r2⟩ := r
      have := (async_put_nowait_ok_pre hr).2 h0
      omega

/-- Witness for the C2 theorem on a fresh bounded queue and a full state. -/
theorem bounded_capacity_witness :
    (((initState Nat 1).queue.length : Int) ≤ 1) ∧
    sync_put (fifoStrategy Nat) 9 true none { initState Nat 1 with queue := [4] } ≠
      Res.ok ({ initState Nat 1 with queue := [4] }, {}) := by
  have h := bounded_capacity (fifo_good Nat) (show (0 : Int) < 1 by decide)
    (Relation.ReflTransGen.refl)
  refine ⟨h.1, ?_⟩
  exact (h.2 { initState Nat 1 with queue := [4] } 9 true none (by decide) (by decide)).1
    ({ initState Nat 1 with queue := [4] }, {})

/-- C3 as stated fails: a successful sync put from a state with no waiters at
all performs no same-domain not-empty notification, although the claim says
the same-domain condition is notified unconditionally after a put commit. -/
theorem notify_gating_counterexample :
    sync_put (fifoStrategy Nat) 5 true none (initState Nat 0) =
      Res.ok (sync_put_commit (fifoStrategy Nat) 5 (initState Nat 0)) ∧
    (sync_put_commit (fifoStrategy Nat) 5 (initState Nat 0)).2.sync_not_empty_notified =
      false := by
  decide

/-- C3 amended: after every successful commit each notification — the
same-domain condition notify and the cross-domain notifier job alike — is
issued iff the waiter counter of the notification target is nonzero, and the
pending set grows by the cross-domain jobs exactly under the same gate. -/
theorem notify_gating {α : Type} (st : Strategy α) (item : α) (s : QState α) :
    ((sync_put_commit st item s).2.sync_not_empty_notified =
        (s.sync_not_empty_waiting != 0) ∧
     (sync_put_commit st item s).2.async_not_empty_job =
        (s.async_not_empty_waiting != 0)) ∧
    (∀ x r n, sync_get_commit st s = some (x, r, n) →
      n.sync_not_full_notified = (s.sync_not_full_waiting != 0) ∧
      n.async_not_full_job = (s.async_not_full_waiting != 0)) ∧
    ((async_put_commit st item s).2.async_not_empty_notified =
        (s.async_not_empty_waiting != 0) ∧
     (async_put_commit st item s).2.sync_not_empty_job =
        (s.sync_not_empty_waiting != 0) ∧
     (async_put_commit st item s).1.pending = s.pending ++
        (if s.sync_not_empty_waiting != 0 then [⟨NotifyKind.syncNotEmpty, false⟩] else [])) ∧
    ((async_put_nowait_commit st item s).2.async_not_empty_job =
        (s.async_not_empty_waiting != 0) ∧
     (async_put_nowait_commit st item s).2.sync_not_empty_job =
        (s.sync_not_empty_waiting != 0) ∧
     (async_put_nowait_commit st item s).1.pending = s.pending ++
        (if s.async_not_empty_waiting != 0 then [⟨NotifyKind.asyncNotEmpty, false⟩] else []) ++
        (if s.sync_not_empty_waiting != 0 then [⟨NotifyKind.syncNotEmpty, false⟩] else [])) ∧
    (∀ x r n, async_get_commit st s = some (x, r, n) →
      n.async_not_full_notified = (s.async_not_full_waiting != 0) ∧
      n.sync_not_full_job = (s.sync_not_full_waiting != 0) ∧
      r.pending = s.pending ++
        (if s.sync_not_full_waiting != 0 then [⟨NotifyKind.syncNotFull, false⟩] else [])) ∧
    (∀ x r n, async_get_nowait_commit st s = some (x, r, n) →
      n.async_not_full_job = (s.async_not_full_waiting != 0) ∧
      n.sync_not_full_job = (s.sync_not_full_waiting != 0) ∧
      r.pending = s.pending ++
        (if s.async_not_full_waiting != 0 then [⟨NotifyKind.asyncNotFull, false⟩] else []) ++
        (if s.sync_not_full_waiting != 0 then [⟨NotifyKind.syncNotFull, false⟩] else [])) := by
  refine ⟨⟨rfl, rfl⟩, ?_, ⟨rfl, rfl, rfl⟩, ⟨rfl, rfl, rfl⟩, ?_, ?_⟩
  · intro x r n h
    obtain ⟨-, -, -, -, -, -, hn⟩ := sync_get_commit_eq h
    subst hn
    exact ⟨rfl, rfl⟩
  · intro x r n h
    obtain ⟨-, -, -, -, -, hp, hn⟩ := async_get_commit_eq h
    subst hn
    exact ⟨rfl, rfl, hp⟩
  · intro x r n h
    obtain ⟨-, -, -, -, -, hp, hn⟩ := async_get_nowait_commit_eq h
    subst hn
    exact ⟨rfl, rfl, hp⟩

/-- Witness for the C3 amended theorem on a state with waiters present. -/
theorem notify_gating_witness :
    ((sync_put_commit (fifoStrategy Nat) 7 sampleState).2.sync_not_empty_notified =
        (sampleState.sync_not_empty_waiting != 0)) ∧
    (({ sync_not_full_notified := true, async_not_full_job := true } : Notices).sync_not_full_notified =
        (sampleState.sync_not_full_waiting != 0)) := by
  have h := notify_gating (fifoStrategy Nat) 7 sampleState
  refine ⟨h.1.1, ?_⟩
  exact (h.2.1 3 { sampleState with queue := [] }
    { sync_not_full_notified := true, async_not_full_job := true } (by decide)).1

/-- C4 as stated fails: after `close` the sync facade `qsize` query returns
normally instead of failing with the closed-queue error — the source has no
closing check on any size or capacity query. -/
theorem closing_queries_counterexample :
    (close (initState Nat 0)).closing = true ∧
    sync_qsize (close (initState Nat 0)) = Res.ok 0 ∧
    sync_qsize (close (initState Nat 0)) ≠ Res.err Err.closed := by
  decide

/-- C4 amended: once the closing flag is set, `put`, `get`, `put_nowait`,
`get_nowait`, `task_done` and `join` on both facades fail with the
closed-queue error, while `close`, `wait_closed` and `aclose` stay available;
the size and capacity queries perform no closing check and return normally. -/
theorem closing_rejects_ops {α : Type} (st : Strategy α) (item : α)
    (block : Bool) (timeout : Option Int) (s : QState α) (h : s.closing = true) :
    sync_put st item block timeout s = Res.err Err.closed ∧
    sync_qsize s = Res.ok (qsizeInternal s) ∧
    sync_get st block timeout s = Res.err Err.closed ∧
    sync_put_nowait st item s = Res.err Err.closed ∧
    sync_get_nowait st s = Res.err Err.closed ∧
    async_put st item s = Res.err Err.closed ∧
    async_put_nowait st item s = Res.err Err.closed ∧
    async_get st s = Res.err Err.closed ∧
    async_get_nowait st s = Res.err Err.closed ∧
    sync_task_done s = Res.err Err.closed ∧
    async_task_done s = Res.err Err.closed ∧
    sync_join s = Res.err Err.closed ∧
    async_join s = Res.err Err.closed ∧
    wait_closed s = Res.ok () ∧
    aclose s = Res.ok (close s) ∧
    (close s).closing = true ∧
    sync_empty s = Res.ok (qsizeInternal s == 0) ∧
    sync_full s = Res.ok (decide (0 < s.maxsize ∧ s.maxsize ≤ (qsizeInternal s : Int))) ∧
    async_qsize s = Res.ok (qsizeInternal s) ∧
    async_empty s = Res.ok (qsizeInternal s == 0) ∧
    async_full s = Res.ok (if s.maxsize ≤ 0 then false
        else decide (s.maxsize ≤ (qsizeInternal s : Int))) ∧
    proxy_maxsize s = Res.ok s.maxsize ∧
    proxy_unfinished s = Res.ok s.unfinished_tasks := by
  refine ⟨?_, rfl, ?_, ?_, ?_, ?_, ?_, ?_, ?_, ?_, ?_, ?_, ?_, ?_, ?_, rfl,
    rfl, rfl, rfl, rfl, rfl, rfl, rfl⟩ <;>
    simp [sync_put, sync_get, sync_put_nowait, sync_get_nowait, async_put,
      async_put_nowait, async_get, async_get_nowait, sync_task_done,
      async_task_done, sync_join, async_join, wait_closed, aclose, close, h]

/-- Witness for the C4 amended theorem on a freshly closed queue. -/
theorem closing_rejects_ops_witness :
    sync_put (fifoStrategy Nat) 0 true none (close (initState Nat 0)) =
      Res.err Err.closed ∧
    sync_qsize (close (initState Nat 0)) = Res.ok 0 := by
  have h := closing_rejects_ops (fifoStrategy Nat) 0 true none
    (close (initState Nat 0)) rfl
  exact ⟨h.1, h.2.1⟩

/-- C5: in every reachable state `unfinished_tasks` is non-negative, and on
any open state with a non-negative counter, `task_done` on either facade
fails with `TooManyCompletions` exactly when `unfinished_tasks` is zero at
the call (the error leaves the state untouched: an error result carries no
successor state, as in the source, whose raise precedes any assignment) and
otherwise decrements the counter by exactly one, keeping it non-negative. -/
theorem task_done_accounting {α : Type} {st : Strategy α} (gs : GoodStrategy st)
    {m : Int} {s : QState α} (hreach : ReachableFrom st (initState α m) s) :
    0 ≤ s.unfinished_tasks ∧
    ∀ s2 : QState α, s2.closing = false → 0 ≤ s2.unfinished_tasks →
      ((s2.unfinished_tasks = 0 →
        sync_task_done s2 = Res.err Err.tooManyCompletions ∧
        async_task_done s2 = Res.err Err.tooManyCompletions) ∧
       (0 < s2.unfinished_tasks →
        (∃ s', sync_task_done s2 = Res.ok s' ∧
          s'.unfinished_tasks = s2.unfinished_tasks - 1 ∧ 0 ≤ s'.unfinished_tasks) ∧
        (∃ s', async_task_done s2 = Res.ok s' ∧
          s'.unfinished_tasks = s2.unfinished_tasks - 1 ∧ 0 ≤ s'.unfinished_tasks))) := by
  refine ⟨(reachable_inv gs hreach).2.2, ?_⟩
  intro s2 hclose hnn
  constructor
  · intro hzero
    constructor
    · simp only [sync_task_done, hclose]
      rw [if_neg (by simp), if_pos (by omega), if_pos (by omega)]
    · simp only [async_task_done, hclose]
      rw [if_neg (by simp), if_pos (by omega)]
  · intro hpos
    constructor
    · by_cases h1 : s2.unfinished_tasks - 1 ≤ 0
      · refine ⟨{ s2 with unfinished_tasks := s2.unfinished_tasks - 1, finished := true },
          ?_, rfl, show (0 : Int) ≤ s2.unfinished_tasks - 1 by omega⟩
        simp only [sync_task_done, hclose]
        rw [if_neg (by simp), if_pos h1, if_neg (by omega)]
      · refine ⟨{ s2 with unfinished_tasks := s2.unfinished_tasks - 1 },
          ?_, rfl, show (0 : Int) ≤ s2.unfinished_tasks - 1 by omega⟩
        simp only [sync_task_done, hclose]
        rw [if_neg (by simp), if_neg h1]
    · by_cases h1 : s2.unfinished_tasks - 1 = 0
      · refine ⟨{ s2 with unfinished_tasks := s2.unfinished_tasks - 1, finished := true },
          ?_, rfl, show (0 : Int) ≤ s2.unfinished_tasks - 1 by omega⟩
        simp only [async_task_done, hclose]
        rw [if_neg (by simp), if_neg (by omega), if_pos h1]
      · refine ⟨{ s2 with unfinished_tasks := s2.unfinished_tasks - 1 },
          ?_, rfl, show (0 : Int) ≤ s2.unfinished_tasks - 1 by omega⟩
        simp only [async_task_done, hclose]
        rw [if_neg (by simp), if_neg (by omega), if_neg h1]

/-- Witness for the C5 theorem: a double acknowledgement on one put fails,
and the first one decrements to zero. -/
theorem task_done_accounting_witness :
    0 ≤ (initState Nat 0).unfinished_tasks ∧
    sync_task_done (initState Nat 0) = Res.err Err.tooManyCompletions ∧
    (∃ s', sync_task_done { initState Nat 0 with unfinished_tasks := 1 } = Res.ok s' ∧
      s'.unfinished_tasks = ({ initState Nat 0 with unfinished_tasks := 1 } : QState Nat).unfinished_tasks - 1 ∧
      0 ≤ s'.unfinished_tasks) := by
  have h := task_done_accounting (fifo_good Nat)
    (Relation.ReflTransGen.refl (a := initState Nat 0))
  refine ⟨h.1, ((h.2 (initState Nat 0) rfl (by decide)).1 rfl).1, ?_⟩
  exact ((h.2 { initState Nat 0 with unfinished_tasks := 1 } rfl (by decide)).2 (by decide)).1

/-- C6 as stated fails: on an unbounded queue (`maxsize = 0`) a blocking put
with a negative timeout does not raise `InvalidTimeout` — the source
validates the timeout only inside its `maxsize > 0` branch — the item is
committed instead. -/
theorem negative_timeout_counterexample :
    sync_put (fifoStrategy Nat) 3 true (some (-1)) (initState Nat 0) =
      Res.ok (sync_put_commit (fifoStrategy Nat) 3 (initState Nat 0)) ∧
    sync_put (fifoStrategy Nat) 3 true (some (-1)) (initState Nat 0) ≠
      Res.err Err.invalidTimeout := by
  decide

/-- C6 amended: on a non-closed queue a blocking-facade call with
`block = True` and a negative timeout fails with `InvalidTimeout` — for `get`
always, regardless of `maxsize` and buffer content, and for `put` exactly
when `maxsize > 0`; with `maxsize ≤ 0` the put skips timeout validation and
commits. -/
theorem negative_timeout {α : Type} (st : Strategy α) (item : α) (t : Int)
    (ht : t < 0) (s : QState α) (hclose : s.closing = false) :
    sync_get st true (some t) s = Res.err Err.invalidTimeout ∧
    (0 < s.maxsize → sync_put st item true (some t) s = Res.err Err.invalidTimeout) ∧
    (s.maxsize ≤ 0 → sync_put st item true (some t) s =
      Res.ok (sync_put_commit st item s)) := by
  refine ⟨?_, ?_, ?_⟩
  · simp [sync_get, hclose, ht]
  · intro hm
    simp [sync_put, hclose, hm, ht]
  · intro hm
    simp [sync_put, hclose, ht, show ¬(0 < s.maxsize) by omega]

/-- Witness for the C6 amended theorem on a bounded and an unbounded queue. -/
theorem negative_timeout_witness :
    sync_get (fifoStrategy Nat) true (some (-1)) (initState Nat 1) =
      Res.err Err.invalidTimeout ∧
    sync_put (fifoStrategy Nat) 2 true (some (-1)) (initState Nat 1) =
      Res.err Err.invalidTimeout ∧
    sync_put (fifoStrategy Nat) 2 true (some (-1)) (initState Nat 0) =
      Res.ok (sync_put_commit (fifoStrategy Nat) 2 (initState Nat 0)) := by
  have h1 := negative_timeout (fifoStrategy Nat) 2 (-1) (by decide)
    (initState Nat 1) rfl
  have h2 := negative_timeout (fifoStrategy Nat) 2 (-1) (by decide)
    (initState Nat 0) rfl
  exact ⟨h1.1, h1.2.1 (by decide), h2.2.2 (by decide)⟩

/-- C7: a put that fails with `Full` — non-blocking, or blocking once the
timeout deadline passes — raises without committing: an error result carries
no successor state, as in the source, whose Full paths mutate nothing (the
waiter-counter bump around each wait is undone by the `finally`, the
round-trip shown below); in the concrete scenario with `maxsize = 2`, after
`put(A)` and `put(B)` succeed, `put(C, timeout = t)` fails with `Full` and
the buffer still holds exactly `[A, B]` with `unfinished_tasks = 2`. -/
theorem failed_put_frame {α : Type} (a b c : α) (t : Int) (ht : 0 ≤ t) :
    (∀ (st : Strategy α) (s2 : QState α) (item : α),
      s2.closing = false → 0 < s2.maxsize → s2.maxsize ≤ (qsizeInternal s2 : Int) →
      sync_put st item false none s2 = Res.err Err.full ∧
      sync_put st item true (some t) s2 = Res.err Err.full ∧
      async_put_nowait st item s2 = Res.err Err.full) ∧
    (∀ s2 : QState α, end_wait_sync_not_full (begin_wait_sync_not_full s2) = s2) ∧
    (∃ s1 n1 s2 n2,
      sync_put (fifoStrategy α) a true none (initState α 2) = Res.ok (s1, n1) ∧
      sync_put (fifoStrategy α) b true none s1 = Res.ok (s2, n2) ∧
      sync_put (fifoStrategy α) c true (some t) s2 = Res.err Err.full ∧
      s2.queue = [a, b] ∧ s2.unfinished_tasks = 2) := by
  refine ⟨?_, ?_, ?_⟩
  · intro st s2 item hclose hm hfull
    refine ⟨?_, ?_, ?_⟩
    · simp [sync_put, hclose, hm, hfull]
    · simp [sync_put, hclose, hm, hfull, show ¬(t < 0) by omega]
    · simp [async_put_nowait, hclose, hm, hfull]
  · intro s2
    simp [begin_wait_sync_not_full, end_wait_sync_not_full]
  · refine ⟨(sync_put_commit (fifoStrategy α) a (initState α 2)).1,
      (sync_put_commit (fifoStrategy α) a (initState α 2)).2,
      (sync_put_commit (fifoStrategy α) b
        (sync_put_commit (fifoStrategy α) a (initState α 2)).1).1,
      (sync_put_commit (fifoStrategy α) b
        (sync_put_commit (fifoStrategy α) a (initState α 2)).1).2,
      ?_, ?_, ?_, ?_, ?_⟩
    · rw [Prod.mk.eta]
      simp [sync_put, initState, qsizeInternal]
    · rw [Prod.mk.eta]
      simp [sync_put, sync_put_commit, put_internal, initState, qsizeInternal,
        fifoStrategy, fifo_put]
    · simp [sync_put, sync_put_commit, put_internal, initState, qsizeInternal,
        fifoStrategy, fifo_put, show ¬(t < 0) by omega]
    · simp [sync_put_commit, put_internal, fifoStrategy, fifo_put, initState]
    · simp [sync_put_commit, put_internal, initState]

/-- Witness for the C7 theorem with concrete items and timeout zero. -/
theorem failed_put_frame_witness :
    sync_put (fifoStrategy Nat) 9 false none { initState Nat 1 with queue := [5] } =
      Res.err Err.full ∧
    end_wait_sync_not_full (begin_wait_sync_not_full (initState Nat 3)) =
      initState Nat 3 ∧
    (∃ s1 n1 s2 n2,
      sync_put (fifoStrategy Nat) 1 true none (initState Nat 2) = Res.ok (s1, n1) ∧
      sync_put (fifoStrategy Nat) 2 true none s1 = Res.ok (s2, n2) ∧
      sync_put (fifoStrategy Nat) 3 true (some 0) s2 = Res.err Err.full ∧
      s2.queue = [1, 2] ∧ s2.unfinished_tasks = 2) := by
  have h := failed_put_frame (1 : Nat) 2 3 0 (by decide)
  exact ⟨(h.1 (fifoStrategy Nat) { initState Nat 1 with queue := [5] } 9 rfl
      (by decide) (by decide)).1,
    h.2.1 (initState Nat 3), h.2.2⟩

/-- C8: `close` is idempotent — a second `close` reproduces exactly the state
after the first, the closing flag stays true and the finished signal stays
set. -/
theorem close_idempotent {α : Type} (s : QState α) :
    close (close s) = close s ∧ (close s).closing = true ∧
    (close s).finished = true := by
  refine ⟨?_, rfl, rfl⟩
  have hff : ((fun j : Job => { j with cancelled := true }) ∘
      fun j : Job => { j with cancelled := true }) =
      fun j : Job => { j with cancelled := true } := funext fun j => rfl
  simp only [close, List.map_map, hff]

/-- C9: the public `closed` property is true iff the closing flag is set and
the pending set is empty; right after `close` with notifier jobs still in the
pending set, `closed` is false although the closing flag is already true. -/
theorem closed_property {α : Type} (s : QState α) :
    (closedProp s = true ↔ (s.closing = true ∧ s.pending = [])) ∧
    (s.pending ≠ [] → ((close s).closing = true ∧ closedProp (close s) = false)) := by
  constructor
  · simp [closedProp, List.isEmpty_iff]
  · intro hp
    refine ⟨rfl, ?_⟩
    simp only [closedProp, close, Bool.and_eq_false_iff]
    right
    simp [List.isEmpty_iff, hp]

/-- Witness for the C9 theorem on a state with one pending job. -/
theorem closed_property_witness :
    (closedProp pendingState = true ↔
      (pendingState.closing = true ∧ pendingState.pending = [])) ∧
    ((close pendingState).closing = true ∧ closedProp (close pendingState) = false) := by
  have h := closed_property pendingState
  exact ⟨h.1, h.2 (by decide)⟩

/-- C10: every successful get or get_nowait on either facade removes exactly
one item from the buffer and leaves `unfinished_tasks`, the finished signal,
`maxsize` and the closing flag unchanged; every successful put adds exactly
one item, increments `unfinished_tasks` by one and clears the finished
signal, leaving `maxsize` and the closing flag unchanged. -/
theorem op_frame {α : Type} {st : Strategy α} (gs : GoodStrategy st) :
    (∀ (s : QState α) (block : Bool) (timeout : Option Int) x s' n,
      sync_get st block timeout s = Res.ok (x, s', n) →
      s'.queue.length + 1 = s.queue.length ∧
      s'.unfinished_tasks = s.unfinished_tasks ∧ s'.finished = s.finished ∧
      s'.maxsize = s.maxsize ∧ s'.closing = s.closing) ∧
    (∀ (s : QState α) x s' n, async_get st s = Res.ok (x, s', n) →
      s'.queue.length + 1 = s.queue.length ∧
      s'.unfinished_tasks = s.unfinished_tasks ∧ s'.finished = s.finished ∧
      s'.maxsize = s.maxsize ∧ s'.closing = s.closing) ∧
    (∀ (s : QState α) x s' n, async_get_nowait st s = Res.ok (x, s', n) →
      s'.queue.length + 1 = s.queue.length ∧
      s'.unfinished_tasks = s.unfinished_tasks ∧ s'.finished = s.finished ∧
      s'.maxsize = s.maxsize ∧ s'.closing = s.closing) ∧
    (∀ (s : QState α) item (block : Bool) (timeout : Option Int) s' n,
      sync_put st item block timeout s = Res.ok (s', n) →
      s'.queue.length = s.queue.length + 1 ∧
      s'.unfinished_tasks = s.unfinished_tasks + 1 ∧ s'.finished = false ∧
      s'.maxsize = s.maxsize ∧ s'.closing = s.closing) ∧
    (∀ (s : QState α) item s' n, async_put st item s = Res.ok (s', n) →
      s'.queue.length = s.queue.length + 1 ∧
      s'.unfinished_tasks = s.unfinished_tasks + 1 ∧ s'.finished = false ∧
      s'.maxsize = s.maxsize ∧ s'.closing = s.closing) ∧
    (∀ (s : QState α) item s' n, async_put_nowait st item s = Res.ok (s', n) →
      s'.queue.length = s.queue.length + 1 ∧
      s'.unfinished_tasks = s.unfinished_tasks + 1 ∧ s'.finished = false ∧
      s'.maxsize = s.maxsize ∧ s'.closing = s.closing) := by
  refine ⟨?_, ?_, ?_, ?_, ?_, ?_⟩
  · intro s block timeout x s' n h
    obtain ⟨-, hcommit⟩ := sync_get_ok h
    obtain ⟨hg, h1, h2, h3, h4, -, -⟩ := sync_get_commit_eq hcommit
    exact ⟨gs.get_length _ _ _ hg, h2, h3, h1, h4⟩
  · intro s x s' n h
    obtain ⟨-, hcommit⟩ := async_get_ok h
    obtain ⟨hg, h1, h2, h3, h4, -, -⟩ := async_get_commit_eq hcommit
    exact ⟨gs.get_length _ _ _ hg, h2, h3, h1, h4⟩
  · intro s x s' n h
    obtain ⟨-, hcommit⟩ := async_get_nowait_ok h
    obtain ⟨hg, h1, h2, h3, h4, -, -⟩ := async_get_nowait_commit_eq hcommit
    exact ⟨gs.get_length _ _ _ hg, h2, h3, h1, h4⟩
  · intro s item block timeout s' n h
    have h1 : s' = (sync_put_commit st item s).1 := congrArg Prod.fst (sync_put_ok h)
    subst h1
    simp [sync_put_commit, put_internal, gs.put_length]
  · intro s item s' n h
    have h1 : s' = (async_put_commit st item s).1 := congrArg Prod.fst (async_put_ok h)
    subst h1
    simp [async_put_commit, put_internal, gs.put_length]
  · intro s item s' n h
    have h1 : s' = (async_put_nowait_commit st item s).1 :=
      congrArg Prod.fst (async_put_nowait_ok h)
    subst h1
    simp [async_put_nowait_commit, put_internal, gs.put_length]

/-- Witness for the C10 theorem on a concrete get and put. -/
theorem op_frame_witness :
    (({ getSample with queue := ([] : List Nat) } : QState Nat).queue.length + 1 =
        getSample.queue.length ∧
      ({ getSample with queue := ([] : List Nat) } : QState Nat).unfinished_tasks =
        getSample.unfinished_tasks ∧
      ({ getSample with queue := ([] : List Nat) } : QState Nat).finished =
        getSample.finished ∧
      ({ getSample with queue := ([] : List Nat) } : QState Nat).maxsize =
        getSample.maxsize ∧
      ({ getSample with queue := ([] : List Nat) } : QState Nat).closing =
        getSample.closing) ∧
    ((sync_put_commit (fifoStrategy Nat) 6 getSample).1.queue.length =
        getSample.queue.length + 1 ∧
      (sync_put_commit (fifoStrategy Nat) 6 getSample).1.unfinished_tasks =
        getSample.unfinished_tasks + 1 ∧
      (sync_put_commit (fifoStrategy Nat) 6 getSample).1.finished = false ∧
      (sync_put_commit (fifoStrategy Nat) 6 getSample).1.maxsize = getSample.maxsize ∧
      (sync_put_commit (fifoStrategy Nat) 6 getSample).1.closing = getSample.closing) := by
  have h := op_frame (fifo_good Nat)
  exact ⟨h.1 getSample false none 4 { getSample with queue := [] } {} (by decide),
    h.2.2.2.1 getSample 6 false none (sync_put_commit (fifoStrategy Nat) 6 getSample).1
      (sync_put_commit (fifoStrategy Nat) 6 getSample).2 (by decide)⟩

end Janus
